import Mathlib

/-!
Verification of the llm-router core against its specification.

The repository ships only example scripts (`examples/basic_usage.py`,
`examples/advanced_config.py`, `examples/streaming_example.py`); the routing
engine itself (Strategy Engine, Cache Layer, Retry/Failover Controller,
Health Monitor, Cost Tracker, Streaming Orchestrator, Router Core) is not
present in the source tree.  Those components are therefore modelled from the
specification text, and the example call sites are embedded directly from the
example scripts.
-/

namespace LLMRouter

/-- Modelled from the spec: `RequestSpec` (§3) — prompt, target model name and
generation parameters (temperature, max_tokens, top_p, stop sequences).  The
numeric parameters are modelled as abstract `Option Nat` values; only their
identity matters for fingerprinting. -/
structure RequestSpec where
  prompt : String
  model : String
  temperature : Option Nat
  maxTokens : Option Nat
  topP : Option Nat
  stop : List String
deriving DecidableEq

/-- Modelled from the spec: `CompletionResult` (§3) — content, serving provider
name, cost estimate, latency, timestamp.  Immutable once produced. -/
structure CompletionResult where
  content : String
  provider : String
  costEstimate : Nat
  latencyMs : Nat
  timestamp : Nat
deriving DecidableEq

/-- Modelled from the spec: the cache fingerprint (§3) — a content hash over all
fields that affect output determinism (model, prompt, parameters) excluding
provider identity.  `RequestSpec` holds exactly those fields, so the hash is
modelled as the content itself (a collision-free hash). -/
def fingerprint (r : RequestSpec) : RequestSpec := r

/-- Modelled from the spec: `CacheEntry` (§3) — fingerprint mapped to the
completion result together with its insertion time. -/
structure CacheEntry where
  key : RequestSpec
  result : CompletionResult
  insertedAt : Nat
deriving DecidableEq

/-- Modelled from the spec: the Cache Layer state (§4.1) — bounded store with
TTL expiry, least-recently-used eviction and hit/miss counters.  `entries` is
kept in most-recently-used-first order, so the least-recently-used entry is
last. -/
structure Cache where
  entries : List CacheEntry
  maxSize : Nat
  ttl : Nat
  hits : Nat
  misses : Nat
deriving DecidableEq

/-- Find the entry for a fingerprint, if any. -/
def findKey (fp : RequestSpec) : List CacheEntry → Option CacheEntry
  | [] => none
  | e :: rest => if e.key = fp then some e else findKey fp rest

/-- Remove every entry for a fingerprint. -/
def removeKey (fp : RequestSpec) : List CacheEntry → List CacheEntry
  | [] => []
  | e :: rest => if e.key = fp then removeKey fp rest else e :: removeKey fp rest

/-- Modelled from the spec: `lookup(fingerprint) -> CompletionResult | miss`
(§4.1).  A hit only if an entry exists and `now - insertion_time < ttl`; an
expired entry is treated as a miss and lazily purged; the hit/miss counters are
updated atomically with the outcome; a hit refreshes recency. -/
def Cache.lookup (c : Cache) (fp : RequestSpec) (now : Nat) :
    Option CompletionResult × Cache :=
  match findKey fp c.entries with
  | none => (none, { c with misses := c.misses + 1 })
  | some e =>
    if now - e.insertedAt < c.ttl then
      (some e.result, { c with entries := e :: removeKey fp c.entries, hits := c.hits + 1 })
    else
      (none, { c with entries := removeKey fp c.entries, misses := c.misses + 1 })

/-- Modelled from the spec: `store(fingerprint, result)` (§4.1) — enforces the
size bound: if at capacity, evict the least-recently-used entry (the last one)
before inserting. -/
def Cache.store (c : Cache) (fp : RequestSpec) (r : CompletionResult) (now : Nat) :
    Cache :=
  { c with entries := ⟨fp, r, now⟩ ::
      (if c.maxSize ≤ (removeKey fp c.entries).length
       then (removeKey fp c.entries).dropLast
       else removeKey fp c.entries) }

/-- A fresh cache with the configured capacity and TTL. -/
def Cache.init (maxSize ttl : Nat) : Cache :=
  { entries := [], maxSize := maxSize, ttl := ttl, hits := 0, misses := 0 }

/-- A cache client operation: a lookup or a store. -/
inductive CacheOp
  | look (fp : RequestSpec) (now : Nat)
  | put (fp : RequestSpec) (r : CompletionResult) (now : Nat)

/-- Apply one cache operation, keeping only the resulting state. -/
def Cache.applyOp (c : Cache) : CacheOp → Cache
  | .look fp now => (c.lookup fp now).2
  | .put fp r now => c.store fp r now

/-- Run a sequence of cache operations. -/
def Cache.runOps (c : Cache) (ops : List CacheOp) : Cache :=
  ops.foldl Cache.applyOp c

theorem removeKey_length_le (fp : RequestSpec) (l : List CacheEntry) :
    (removeKey fp l).length ≤ l.length := by
  induction l with
  | nil => simp [removeKey]
  | cons e rest ih =>
    simp only [removeKey]
    split
    · exact Nat.le_succ_of_le ih
    · simpa using Nat.succ_le_succ ih

theorem removeKey_length_lt_of_found (fp : RequestSpec) (l : List CacheEntry)
    (e : CacheEntry) (h : findKey fp l = some e) :
    (removeKey fp l).length < l.length := by
  induction l with
  | nil => simp [findKey] at h
  | cons a rest ih =>
    simp only [findKey] at h
    simp only [removeKey]
    by_cases hk : a.key = fp
    · simp only [if_pos hk]
      exact Nat.lt_succ_of_le (removeKey_length_le fp rest)
    · simp only [if_neg hk] at h ⊢
      simpa using Nat.succ_lt_succ (ih h)

theorem removeKey_of_not_found (fp : RequestSpec) (l : List CacheEntry)
    (h : findKey fp l = none) : removeKey fp l = l := by
  induction l with
  | nil => simp [removeKey]
  | cons a rest ih =>
    simp only [findKey] at h
    by_cases hk : a.key = fp
    · simp [hk] at h
    · simp only [removeKey, if_neg hk]
      simp only [if_neg hk] at h
      rw [ih h]

theorem lookup_entries_length_le (c : Cache) (fp : RequestSpec) (now : Nat) :
    ((c.lookup fp now).2).entries.length ≤ c.entries.length := by
  unfold Cache.lookup
  cases h : findKey fp c.entries with
  | none => simp
  | some e =>
    simp only
    split
    · simpa using removeKey_length_lt_of_found fp c.entries e h
    · simpa using removeKey_length_le fp c.entries

theorem store_entries_length_le (c : Cache) (fp : RequestSpec)
    (r : CompletionResult) (now : Nat) (hpos : 1 ≤ c.maxSize)
    (hlen : c.entries.length ≤ c.maxSize) :
    (c.store fp r now).entries.length ≤ c.maxSize := by
  unfold Cache.store
  simp only [List.length_cons]
  have hrm := removeKey_length_le fp c.entries
  split
  · next hcap =>
    have hne : removeKey fp c.entries ≠ [] := by
      intro hemp
      rw [hemp] at hcap
      simp at hcap
      omega
    rw [List.length_dropLast]
    have : 0 < (removeKey fp c.entries).length := List.length_pos.mpr hne
    omega
  · next hcap => omega

theorem lookup_preserves_config (c : Cache) (fp : RequestSpec) (now : Nat) :
    ((c.lookup fp now).2).maxSize = c.maxSize ∧ ((c.lookup fp now).2).ttl = c.ttl := by
  unfold Cache.lookup
  cases h : findKey fp c.entries with
  | none => simp
  | some e =>
    simp only
    split <;> simp

theorem applyOp_invariant (c : Cache) (op : CacheOp) (hpos : 1 ≤ c.maxSize)
    (hlen : c.entries.length ≤ c.maxSize) :
    (c.applyOp op).entries.length ≤ (c.applyOp op).maxSize ∧
      (c.applyOp op).maxSize = c.maxSize := by
  cases op with
  | look fp now =>
    have hc := lookup_preserves_config c fp now
    simp only [Cache.applyOp]
    refine ⟨?_, hc.1⟩
    rw [hc.1]
    exact le_trans (lookup_entries_length_le c fp now) hlen
  | put fp r now =>
    simp only [Cache.applyOp]
    constructor
    · exact store_entries_length_le c fp r now hpos hlen
    · rfl

theorem runOps_invariant (ops : List CacheOp) (c : Cache) (hpos : 1 ≤ c.maxSize)
    (hlen : c.entries.length ≤ c.maxSize) :
    (c.runOps ops).entries.length ≤ c.maxSize := by
  induction ops generalizing c with
  | nil => simpa [Cache.runOps] using hlen
  | cons op rest ih =>
    have h := applyOp_invariant c op hpos hlen
    have hrun : c.runOps (op :: rest) = (c.applyOp op).runOps rest := by
      simp [Cache.runOps]
    rw [hrun]
    have hpos' : 1 ≤ (c.applyOp op).maxSize := by rw [h.2]; exact hpos
    have hlen' : (c.applyOp op).entries.length ≤ (c.applyOp op).maxSize := h.1
    have := ih (c.applyOp op) hpos' hlen'
    rwa [h.2] at this

/-- Modelled from the spec: health states (§4.2), `UNKNOWN → HEALTHY ⇄ UNHEALTHY`. -/
inductive HealthState
  | unknown
  | healthy
  | unhealthy
deriving DecidableEq

/-- Modelled from the spec: `HealthRecord` (§3) — rolling counters per provider;
`lastFailureAt` supports the least-recently-failed fallback ordering. -/
structure HealthRecord where
  state : HealthState
  totalChecks : Nat
  successes : Nat
  consecutiveFailures : Nat
  lastFailureAt : Nat
deriving DecidableEq

/-- Modelled from the spec: `ProviderRecord` (§3) — identity, kind, priority
(lower preferred), per-provider timeout, max-retries override, cost table. -/
structure ProviderRecord where
  name : String
  kind : String
  priority : Nat
  timeout : Nat
  maxRetries : Nat
  costPerToken : Nat
deriving DecidableEq

/-- Modelled from the spec: the selectable routing policies (§4.3). -/
inductive Strategy
  | priority
  | costOptimized
  | roundRobin
deriving DecidableEq

/-- Stable insertion into a list sorted by `le`: the element goes in front of
the first entry it compares `le` to, so earlier elements win ties. -/
def insertLe {α : Type} (le : α → α → Bool) (a : α) : List α → List α
  | [] => [a]
  | b :: bs => if le a b then a :: b :: bs else b :: insertLe le a bs

/-- Stable insertion sort by a boolean comparison. -/
def sortLe {α : Type} (le : α → α → Bool) : List α → List α
  | [] => []
  | a :: as => insertLe le a (sortLe le as)

/-- Rotate a list: drop the first `n` elements and append them at the end. -/
def rotateList {α : Type} (l : List α) (n : Nat) : List α :=
  l.drop n ++ l.take n

/-- Priority policy comparison: ascending registered priority. -/
def prioLe (p q : ProviderRecord) : Bool :=
  decide (p.priority ≤ q.priority)

/-- Cost policy comparison: ascending cost with priority as tiebreak. -/
def costLe (p q : ProviderRecord) : Bool :=
  decide (p.costPerToken < q.costPerToken ∨
    (p.costPerToken = q.costPerToken ∧ p.priority ≤ q.priority))

/-- Least-recently-failed comparison: the provider whose last failure is
oldest comes first. -/
def failLe (healthOf : ProviderRecord → HealthRecord) (p q : ProviderRecord) : Bool :=
  decide ((healthOf p).lastFailureAt ≤ (healthOf q).lastFailureAt)

/-- Modelled from the spec: the Strategy Engine (§4.3).  Candidates are the
registered providers filtered to those not `UNHEALTHY`; when none remain the
engine falls back to the full registered set ordered least-recently-failed
first.  `priority` sorts ascending by priority (registration order breaks
ties), `cost_optimized` ascending by cost, and `round_robin` rotates the
starting offset into the eligible set by a shared counter advanced once per
request.  Returns the ordered candidate list and the new counter. -/
def selectCandidates (strat : Strategy) (counter : Nat)
    (providers : List ProviderRecord) (healthOf : ProviderRecord → HealthRecord) :
    List ProviderRecord × Nat :=
  let eligible := providers.filter fun p => decide ((healthOf p).state ≠ HealthState.unhealthy)
  if eligible.isEmpty then
    (sortLe (failLe healthOf) providers, counter)
  else
    match strat with
    | .priority => (sortLe prioLe eligible, counter)
    | .costOptimized => (sortLe costLe eligible, counter)
    | .roundRobin => (rotateList eligible (counter % eligible.length), counter + 1)

/-- Modelled from the spec: the error taxonomy (§7) relevant to retries —
transient errors are retryable, permanent ones are not. -/
inductive ProviderError
  | transient (msg : String)
  | permanent (msg : String)
deriving DecidableEq

/-- Whether an error is retryable per the taxonomy (§7). -/
def retryable : ProviderError → Bool
  | .transient _ => true
  | .permanent _ => false

/-- Modelled from the spec: the per-candidate attempt loop of the
Retry/Failover Controller (§4.4).  `att p i` is the outcome of provider `p`'s
`i`-th attempt; the loop retries with remaining budget `fuel` only on
transient errors and returns the first success. -/
def tryFrom (att : ProviderRecord → Nat → Except ProviderError CompletionResult)
    (p : ProviderRecord) : Nat → Nat → Except ProviderError CompletionResult
  | 0, i =>
    match att p i with
    | .ok r => .ok r
    | .error e => .error e
  | fuel + 1, i =>
    match att p i with
    | .ok r => .ok r
    | .error e => if retryable e then tryFrom att p fuel (i + 1) else .error e

/-- Run the attempt loop for one candidate with its own retry budget. -/
def tryProvider (att : ProviderRecord → Nat → Except ProviderError CompletionResult)
    (p : ProviderRecord) : Except ProviderError CompletionResult :=
  tryFrom att p p.maxRetries 0

/-- Outcome of executing a request against the candidate list: a result, or
the aggregate `AllProvidersExhaustedError` carrying the per-provider error
list (§7). -/
inductive ExecOutcome
  | ok (r : CompletionResult)
  | exhausted (errors : List (String × ProviderError))
deriving DecidableEq

/-- Modelled from the spec: the Retry/Failover Controller loop (§4.4) —
iterate candidates in order, success short-circuits, a failed candidate
contributes its error to the aggregate list. -/
def executeGo (att : ProviderRecord → Nat → Except ProviderError CompletionResult) :
    List ProviderRecord → List (String × ProviderError) → ExecOutcome
  | [], errs => .exhausted errs.reverse
  | p :: rest, errs =>
    match tryProvider att p with
    | .ok r => .ok r
    | .error e => executeGo att rest ((p.name, e) :: errs)

/-- Modelled from the spec: `execute(candidates, request) -> CompletionResult`
(§4.4), failing only when every candidate has been exhausted. -/
def execute (att : ProviderRecord → Nat → Except ProviderError CompletionResult)
    (candidates : List ProviderRecord) : ExecOutcome :=
  executeGo att candidates []

theorem executeGo_all_fail (att : ProviderRecord → Nat → Except ProviderError CompletionResult)
    (f : ProviderRecord → ProviderError) :
    ∀ (cs : List ProviderRecord) (errs : List (String × ProviderError)),
      (∀ p ∈ cs, tryProvider att p = .error (f p)) →
      executeGo att cs errs = .exhausted (errs.reverse ++ cs.map fun p => (p.name, f p)) := by
  intro cs
  induction cs with
  | nil => intro errs _; simp [executeGo]
  | cons p rest ih =>
    intro errs h
    have hp : tryProvider att p = .error (f p) := h p (by simp)
    simp only [executeGo, hp]
    rw [ih ((p.name, f p) :: errs) (fun q hq => h q (by simp [hq]))]
    simp

theorem executeGo_exhausted_all_fail
    (att : ProviderRecord → Nat → Except ProviderError CompletionResult) :
    ∀ (cs : List ProviderRecord) (errs errs' : List (String × ProviderError)),
      executeGo att cs errs = .exhausted errs' →
      ∀ p ∈ cs, ∃ e, tryProvider att p = .error e := by
  intro cs
  induction cs with
  | nil => intro errs errs' _ p hp; simp at hp
  | cons q rest ih =>
    intro errs errs' h p hp
    simp only [executeGo] at h
    cases htry : tryProvider att q with
    | ok r => rw [htry] at h; simp at h
    | error e =>
      rw [htry] at h
      rcases List.mem_cons.mp hp with rfl | hmem
      · exact ⟨e, htry⟩
      · exact ih _ _ h p hmem

theorem executeGo_exhausted_length
    (att : ProviderRecord → Nat → Except ProviderError CompletionResult) :
    ∀ (cs : List ProviderRecord) (errs errs' : List (String × ProviderError)),
      executeGo att cs errs = .exhausted errs' →
      errs'.length = errs.length + cs.length := by
  intro cs
  induction cs with
  | nil =>
    intro errs errs' h
    simp only [executeGo, ExecOutcome.exhausted.injEq] at h
    subst h
    simp
  | cons q rest ih =>
    intro errs errs' h
    simp only [executeGo] at h
    cases htry : tryProvider att q with
    | ok r => rw [htry] at h; simp at h
    | error e =>
      rw [htry] at h
      have := ih _ _ h
      simp at this
      simp [this]
      omega

theorem executeGo_first_success
    (att : ProviderRecord → Nat → Except ProviderError CompletionResult)
    (p : ProviderRecord) (r : CompletionResult) (post : List ProviderRecord)
    (hp : tryProvider att p = .ok r) :
    ∀ (pre : List ProviderRecord) (errs : List (String × ProviderError)),
      (∀ q ∈ pre, ∃ e, tryProvider att q = .error e) →
      executeGo att (pre ++ p :: post) errs = .ok r := by
  intro pre
  induction pre with
  | nil => intro errs _; simp [executeGo, hp]
  | cons q rest ih =>
    intro errs h
    obtain ⟨e, he⟩ := h q (by simp)
    simp only [List.cons_append, executeGo, he]
    exact ih _ (fun q' hq' => h q' (by simp [hq']))

theorem insertLe_perm {α : Type} (le : α → α → Bool) (a : α) (l : List α) :
    List.Perm (insertLe le a l) (a :: l) := by
  induction l with
  | nil => simp [insertLe]
  | cons b bs ih =>
    simp only [insertLe]
    split
    · exact List.Perm.refl _
    · exact (List.Perm.cons b ih).trans (List.Perm.swap a b bs)

theorem sortLe_perm {α : Type} (le : α → α → Bool) (l : List α) :
    List.Perm (sortLe le l) l := by
  induction l with
  | nil => simp [sortLe]
  | cons a as ih =>
    exact (insertLe_perm le a (sortLe le as)).trans (List.Perm.cons a ih)

theorem insertLe_pairwise {α : Type} (le : α → α → Bool)
    (htrans : ∀ x y z, le x y = true → le y z = true → le x z = true)
    (htot : ∀ x y, le x y = true ∨ le y x = true)
    (a : α) (l : List α) (h : List.Pairwise (fun x y => le x y = true) l) :
    List.Pairwise (fun x y => le x y = true) (insertLe le a l) := by
  induction l with
  | nil => simp [insertLe]
  | cons b bs ih =>
    rcases List.pairwise_cons.mp h with ⟨hb, hbs⟩
    simp only [insertLe]
    split
    · next hab =>
      refine List.pairwise_cons.mpr ⟨?_, h⟩
      intro x hx
      rcases List.mem_cons.mp hx with rfl | hx'
      · exact hab
      · exact htrans a b x hab (hb x hx')
    · next hab =>
      have hab' : ¬ le a b = true := hab
      have hba : le b a = true := by
        rcases htot a b with h1 | h1
        · exact absurd h1 hab'
        · exact h1
      refine List.pairwise_cons.mpr ⟨?_, ih hbs⟩
      intro x hx
      have hmem : x ∈ a :: bs := (insertLe_perm le a bs).mem_iff.mp hx
      rcases List.mem_cons.mp hmem with rfl | hx'
      · exact hba
      · exact hb x hx'

theorem sortLe_pairwise {α : Type} (le : α → α → Bool)
    (htrans : ∀ x y z, le x y = true → le y z = true → le x z = true)
    (htot : ∀ x y, le x y = true ∨ le y x = true) (l : List α) :
    List.Pairwise (fun x y => le x y = true) (sortLe le l) := by
  induction l with
  | nil => simp [sortLe]
  | cons a as ih => exact insertLe_pairwise le htrans htot a (sortLe le as) ih

theorem eligible_nil_of_all_unhealthy (providers : List ProviderRecord)
    (healthOf : ProviderRecord → HealthRecord)
    (h : ∀ p ∈ providers, (healthOf p).state = HealthState.unhealthy) :
    providers.filter (fun p => decide ((healthOf p).state ≠ HealthState.unhealthy)) = [] := by
  induction providers with
  | nil => rfl
  | cons p ps ih =>
    have hp := h p (by simp)
    have hps : ∀ q ∈ ps, (healthOf q).state = HealthState.unhealthy :=
      fun q hq => h q (List.mem_cons_of_mem p hq)
    have hdec : decide ((healthOf p).state ≠ HealthState.unhealthy) = false := by
      simp [hp]
    rw [List.filter_cons, hdec]
    simpa using ih hps

/-- Modelled from the spec: the Router Core state (§2, §3) — current strategy,
the shared round-robin counter, the append-only registered provider list and
the cache.  Health records and provider adapters are environment snapshots
passed to each operation. -/
structure RouterState where
  strategy : Strategy
  rrCounter : Nat
  providers : List ProviderRecord
  cache : Cache
deriving DecidableEq

/-- Modelled from the spec: the fixed strategy-name registry behind
`set_strategy(name)` (§4.3, §6, §9). -/
def strategyOfName : String → Option Strategy
  | "priority" => some Strategy.priority
  | "cost_optimized" => some Strategy.costOptimized
  | "round_robin" => some Strategy.roundRobin
  | _ => none

/-- Modelled from the spec: `set_strategy(name)` (§6) — swaps the policy
selected by name; an invalid name fails fast with a `ConfigurationError`
(§7). -/
def setStrategy (st : RouterState) (name : String) : Except String RouterState :=
  match strategyOfName name with
  | some s => .ok { st with strategy := s }
  | none => .error "ConfigurationError: invalid strategy name"

/-- Phase one of a request: rank the providers under the current strategy,
returning the ordered candidate list and the advanced counter. -/
def planRequest (st : RouterState) (healthOf : ProviderRecord → HealthRecord) :
    List ProviderRecord × Nat :=
  selectCandidates st.strategy st.rrCounter st.providers healthOf

/-- Phase two of a request: execute against an already-computed candidate
list, store a success in the cache and surface exhaustion as the aggregate
error. -/
def finishRequest (st : RouterState)
    (att : ProviderRecord → Nat → Except ProviderError CompletionResult)
    (cands : List ProviderRecord) (counter' : Nat) (req : RequestSpec) (now : Nat) :
    Except (List (String × ProviderError)) CompletionResult × RouterState :=
  match execute att cands with
  | .ok r =>
    (.ok r, { st with cache := st.cache.store (fingerprint req) r now, rrCounter := counter' })
  | .exhausted errs => (.error errs, { st with rrCounter := counter' })

/-- Modelled from the spec: the Router Core `complete` control flow (§2, §6) —
normalize, cache lookup, on miss rank providers and execute in ranked order,
store the result, return it. -/
def routerComplete (st : RouterState) (healthOf : ProviderRecord → HealthRecord)
    (att : ProviderRecord → Nat → Except ProviderError CompletionResult)
    (req : RequestSpec) (now : Nat) :
    Except (List (String × ProviderError)) CompletionResult × RouterState :=
  match st.cache.lookup (fingerprint req) now with
  | (some r, c') => (.ok r, { st with cache := c' })
  | (none, c') =>
    finishRequest { st with cache := c' } att (planRequest st healthOf).1
      (planRequest st healthOf).2 req now

/-- Outcome of a streamed request (§4.6): the stream completed (served by the
named provider), failed mid-stream, or every candidate was exhausted before
the first chunk. -/
inductive StreamOutcome
  | completed (provider : String)
  | failed (e : ProviderError)
  | exhausted (errors : List (String × ProviderError))
deriving DecidableEq

/-- Modelled from the spec: the Streaming Orchestrator loop (§4.6).
`satt p` is provider `p`'s stream: the chunks it emits and `none` on clean
completion or `some e` when it fails after those chunks.  A candidate that
fails before emitting any chunk is failed over; once a chunk exists a failure
terminates the sequence with an error and no further candidate is tried. -/
def streamGo (satt : ProviderRecord → List String × Option ProviderError) :
    List ProviderRecord → List (String × ProviderError) → List String × StreamOutcome
  | [], errs => ([], .exhausted errs.reverse)
  | p :: rest, errs =>
    match satt p with
    | ([], some e) => streamGo satt rest ((p.name, e) :: errs)
    | (chunks, some e) => (chunks, .failed e)
    | (chunks, none) => (chunks, .completed p.name)

/-- Modelled from the spec: `stream(candidates, request)` (§4.6). -/
def streamExec (satt : ProviderRecord → List String × Option ProviderError)
    (candidates : List ProviderRecord) : List String × StreamOutcome :=
  streamGo satt candidates []

/-- The completion result cached for a successfully completed stream: the full
concatenation of its chunks (§4.6). -/
def streamResult (chunks : List String) (pname : String) (now : Nat) :
    CompletionResult :=
  { content := String.join chunks, provider := pname, costEstimate := 0,
    latencyMs := 0, timestamp := now }

/-- Modelled from the spec: the Router Core `stream` control flow (§2, §4.6) —
a cache hit yields the cached full result as a single immediately-available
chunk; on a miss the orchestrator runs and a successful stream's concatenation
is stored under the same fingerprint scheme as non-streamed completions. -/
def routerStream (st : RouterState) (healthOf : ProviderRecord → HealthRecord)
    (satt : ProviderRecord → List String × Option ProviderError)
    (req : RequestSpec) (now : Nat) :
    List String × StreamOutcome × RouterState :=
  match st.cache.lookup (fingerprint req) now with
  | (some r, c') => ([r.content], .completed r.provider, { st with cache := c' })
  | (none, c') =>
    match streamExec satt (planRequest st healthOf).1 with
    | (chunks, .completed pname) =>
      (chunks, .completed pname,
        { st with
            cache := c'.store (fingerprint req) (streamResult chunks pname now) now,
            rrCounter := (planRequest st healthOf).2 })
    | (chunks, out) =>
      (chunks, out, { st with cache := c', rrCounter := (planRequest st healthOf).2 })

/-- Modelled from the spec: `CostEvent` (§3) — an append-only
(provider, timestamp, cost) record per completed request. -/
structure CostEvent where
  provider : String
  timestamp : Nat
  cost : Nat
deriving DecidableEq

/-- Modelled from the spec: the cost summary (§4.5) —
`{total_cost, per_provider_cost, request_count}`. -/
structure CostSummary where
  totalCost : Nat
  providerCosts : List (String × Nat)
  requestCount : Nat
deriving DecidableEq

/-- Whether an event is within the summary range: at or after `since`, or
unconditionally when `since` is omitted (§4.5). -/
def matchesSince (since : Option Nat) (e : CostEvent) : Bool :=
  match since with
  | none => true
  | some t => decide (t ≤ e.timestamp)

/-- Add an amount to one provider's bucket in the per-provider cost map. -/
def addProviderCost (name : String) (amount : Nat) :
    List (String × Nat) → List (String × Nat)
  | [] => [(name, amount)]
  | (n, a) :: rest =>
    if n = name then (n, a + amount) :: rest
    else (n, a) :: addProviderCost name amount rest

/-- One step of the summary aggregation: fold a single event into the
accumulated summary if it is in range. -/
def summaryStep (since : Option Nat) (acc : CostSummary) (e : CostEvent) :
    CostSummary :=
  if matchesSince since e then
    { totalCost := acc.totalCost + e.cost,
      providerCosts := addProviderCost e.provider e.cost acc.providerCosts,
      requestCount := acc.requestCount + 1 }
  else acc

/-- Modelled from the spec: `get_cost_summary(since?)` (§4.5, §6) — aggregates
the recorded event log, filtered to events at or after `since`. -/
def getCostSummary (events : List CostEvent) (since : Option Nat) : CostSummary :=
  events.foldl (summaryStep since) ⟨0, [], 0⟩

/-- Look a provider's accumulated cost up in the per-provider map (0 when
absent). -/
def pcLookup (name : String) : List (String × Nat) → Nat
  | [] => 0
  | (n, a) :: rest => if n = name then a else pcLookup name rest

/-- The events the spec says a summary covers: all of them, or those with
timestamp at or after the bound.  Stated in the spec's words, to be compared
with the aggregation `getCostSummary` actually performs. -/
def sinceFilter : Option Nat → List CostEvent → List CostEvent
  | none, es => es
  | some t, es => es.filter fun e => decide (t ≤ e.timestamp)

theorem sinceFilter_eq_filter (since : Option Nat) (events : List CostEvent) :
    sinceFilter since events = events.filter (matchesSince since) := by
  cases since with
  | none =>
    simp only [sinceFilter]
    induction events with
    | nil => rfl
    | cons e es ih =>
      rw [List.filter_cons]
      have hm : matchesSince none e = true := rfl
      rw [hm]
      simp only [if_pos]
      exact congrArg (List.cons e) ih
  | some t => rfl

theorem pcLookup_addProviderCost (x m : String) (c : Nat) (l : List (String × Nat)) :
    pcLookup x (addProviderCost m c l) =
      if m = x then pcLookup x l + c else pcLookup x l := by
  induction l with
  | nil => by_cases h : m = x <;> simp [addProviderCost, pcLookup, h]
  | cons na rest ih =>
    obtain ⟨n, a⟩ := na
    simp only [addProviderCost]
    by_cases hnm : n = m
    · by_cases hnx : n = x
      · have hmx : m = x := hnm.symm.trans hnx
        simp [hnm, pcLookup, hnx, hmx]
      · have hmx : ¬ m = x := fun h => hnx (hnm.trans h)
        simp [hnm, pcLookup, hnx, hmx]
    · by_cases hnx : n = x
      · have hmx : ¬ m = x := fun h => hnm (hnx.trans h.symm)
        have hxm : ¬ x = m := fun h => hmx h.symm
        simp [hnm, pcLookup, hnx, hxm, hmx]
      · simp [hnm, pcLookup, hnx, ih]

theorem names_addProviderCost (x m : String) (c : Nat) (l : List (String × Nat)) :
    x ∈ (addProviderCost m c l).map Prod.fst ↔ (x = m ∨ x ∈ l.map Prod.fst) := by
  induction l with
  | nil => simp [addProviderCost]
  | cons na rest ih =>
    obtain ⟨n, a⟩ := na
    simp only [addProviderCost]
    by_cases hnm : n = m
    · rw [if_pos hnm]
      simp only [List.map_cons, List.mem_cons, hnm]
      tauto
    · simp only [if_neg hnm, List.map_cons, List.mem_cons, ih]
      tauto

theorem foldl_summary_total (since : Option Nat) :
    ∀ (events : List CostEvent) (acc : CostSummary),
      (events.foldl (summaryStep since) acc).totalCost =
        acc.totalCost + ((events.filter (matchesSince since)).map CostEvent.cost).sum := by
  intro events
  induction events with
  | nil => intro acc; simp
  | cons e es ih =>
    intro acc
    rw [List.foldl_cons, List.filter_cons]
    cases h : matchesSince since e with
    | false => simp [h, summaryStep, ih]
    | true =>
      simp only [h, if_pos, summaryStep, ih, List.map_cons, List.sum_cons]
      omega

theorem foldl_summary_count (since : Option Nat) :
    ∀ (events : List CostEvent) (acc : CostSummary),
      (events.foldl (summaryStep since) acc).requestCount =
        acc.requestCount + (events.filter (matchesSince since)).length := by
  intro events
  induction events with
  | nil => intro acc; simp
  | cons e es ih =>
    intro acc
    rw [List.foldl_cons, List.filter_cons]
    cases h : matchesSince since e with
    | false => simp [h, summaryStep, ih]
    | true =>
      simp only [h, if_pos, summaryStep, ih, List.length_cons]
      omega

theorem foldl_summary_pc (since : Option Nat) (x : String) :
    ∀ (events : List CostEvent) (acc : CostSummary),
      pcLookup x (events.foldl (summaryStep since) acc).providerCosts =
        pcLookup x acc.providerCosts +
          ((((events.filter (matchesSince since)).filter
              (fun e => decide (e.provider = x))).map CostEvent.cost)).sum := by
  intro events
  induction events with
  | nil => intro acc; simp
  | cons e es ih =>
    intro acc
    rw [List.foldl_cons, List.filter_cons]
    cases h : matchesSince since e with
    | false => simp [h, summaryStep, ih]
    | true =>
      simp only [h, if_pos, summaryStep, ih, pcLookup_addProviderCost]
      rw [List.filter_cons]
      by_cases hx : e.provider = x
      · have hd : decide (e.provider = x) = true := by simp [hx]
        simp [hd, hx]
        omega
      · simp [hx]

theorem foldl_summary_names (since : Option Nat) (x : String) :
    ∀ (events : List CostEvent) (acc : CostSummary),
      (x ∈ (events.foldl (summaryStep since) acc).providerCosts.map Prod.fst ↔
        (x ∈ acc.providerCosts.map Prod.fst ∨
          x ∈ (events.filter (matchesSince since)).map CostEvent.provider)) := by
  intro events
  induction events with
  | nil => intro acc; simp
  | cons e es ih =>
    intro acc
    rw [List.foldl_cons, List.filter_cons]
    cases h : matchesSince since e with
    | false =>
      simp [h, summaryStep, ih]
    | true =>
      simp only [ih, summaryStep, h, if_pos, List.map_cons, List.mem_cons,
        names_addProviderCost]
      tauto

theorem findKey_store (c : Cache) (fp : RequestSpec) (r : CompletionResult)
    (t : Nat) :
    findKey fp (c.store fp r t).entries = some ⟨fp, r, t⟩ := by
  unfold Cache.store
  simp [findKey]

theorem lookup_store_fresh_fst (c : Cache) (fp : RequestSpec)
    (r : CompletionResult) (t now : Nat) (h : now - t < c.ttl) :
    ((c.store fp r t).lookup fp now).1 = some r := by
  unfold Cache.lookup
  rw [findKey_store]
  have httl : (c.store fp r t).ttl = c.ttl := rfl
  simp [httl, h]

theorem lookup_store_fresh_hits (c : Cache) (fp : RequestSpec)
    (r : CompletionResult) (t now : Nat) (h : now - t < c.ttl) :
    ((c.store fp r t).lookup fp now).2.hits = c.hits + 1 := by
  unfold Cache.lookup
  rw [findKey_store]
  have httl : (c.store fp r t).ttl = c.ttl := rfl
  simp [httl, h]
  rfl

theorem lookup_store_expired_fst (c : Cache) (fp : RequestSpec)
    (r : CompletionResult) (t now : Nat) (h : c.ttl ≤ now - t) :
    ((c.store fp r t).lookup fp now).1 = none := by
  unfold Cache.lookup
  rw [findKey_store]
  have httl : (c.store fp r t).ttl = c.ttl := rfl
  simp [httl, Nat.not_lt.mpr h]

theorem lookup_store_expired_misses (c : Cache) (fp : RequestSpec)
    (r : CompletionResult) (t now : Nat) (h : c.ttl ≤ now - t) :
    ((c.store fp r t).lookup fp now).2.misses = c.misses + 1 := by
  unfold Cache.lookup
  rw [findKey_store]
  have httl : (c.store fp r t).ttl = c.ttl := rfl
  simp [httl, Nat.not_lt.mpr h]
  rfl

theorem streamGo_characterization
    (satt : ProviderRecord → List String × Option ProviderError) :
    ∀ (cs : List ProviderRecord) (errs : List (String × ProviderError)),
      (∃ errs', streamGo satt cs errs = ([], .exhausted errs')
        ∧ ∀ q ∈ cs, ∃ e, satt q = ([], some e))
      ∨ (∃ pre p post, cs = pre ++ p :: post
          ∧ (∀ q ∈ pre, ∃ e, satt q = ([], some e))
          ∧ ((∃ chunks, satt p = (chunks, none)
                ∧ streamGo satt cs errs = (chunks, .completed p.name))
             ∨ (∃ chunks e, satt p = (chunks, some e) ∧ chunks ≠ []
                ∧ streamGo satt cs errs = (chunks, .failed e)))) := by
  intro cs
  induction cs with
  | nil =>
    intro errs
    left
    exact ⟨errs.reverse, rfl, by simp⟩
  | cons p rest ih =>
    intro errs
    rcases hs : satt p with ⟨chunks, term⟩
    cases term with
    | some e =>
      cases chunks with
      | nil =>
        have hstep : streamGo satt (p :: rest) errs
            = streamGo satt rest ((p.name, e) :: errs) := by
          simp only [streamGo, hs]
        rcases ih ((p.name, e) :: errs) with ⟨errs', hrun, hall⟩ |
          ⟨pre, q, post, hcs, hpre, hcase⟩
        · left
          refine ⟨errs', by rw [hstep]; exact hrun, ?_⟩
          intro q hq
          rcases List.mem_cons.mp hq with rfl | hq'
          · exact ⟨e, hs⟩
          · exact hall q hq'
        · right
          refine ⟨p :: pre, q, post, by rw [hcs, List.cons_append], ?_, ?_⟩
          · intro q' hq'
            rcases List.mem_cons.mp hq' with rfl | hq''
            · exact ⟨e, hs⟩
            · exact hpre q' hq''
          · rcases hcase with ⟨cks, hq, hrun⟩ | ⟨cks, e', hq, hne, hrun⟩
            · exact Or.inl ⟨cks, hq, by rw [hstep]; exact hrun⟩
            · exact Or.inr ⟨cks, e', hq, hne, by rw [hstep]; exact hrun⟩
      | cons c0 cks =>
        right
        refine ⟨[], p, rest, by simp, by simp, Or.inr ⟨c0 :: cks, e, hs, by simp, ?_⟩⟩
        simp only [streamGo, hs]
    | none =>
      right
      refine ⟨[], p, rest, by simp, by simp, Or.inl ⟨chunks, hs, ?_⟩⟩
      cases chunks with
      | nil => simp only [streamGo, hs]
      | cons c0 cks => simp only [streamGo, hs]

/-- The counter value seen by the k-th consecutive round-robin request,
starting from 0: each request reads the shared counter and advances it. -/
def rrCounterIter (providers : List ProviderRecord)
    (healthOf : ProviderRecord → HealthRecord) : Nat → Nat
  | 0 => 0
  | k + 1 =>
    (selectCandidates Strategy.roundRobin (rrCounterIter providers healthOf k)
      providers healthOf).2

theorem selectCandidates_roundRobin_healthy (a b c : ProviderRecord)
    (healthOf : ProviderRecord → HealthRecord) (cnt : Nat)
    (ha : (healthOf a).state = HealthState.healthy)
    (hb : (healthOf b).state = HealthState.healthy)
    (hc : (healthOf c).state = HealthState.healthy) :
    selectCandidates Strategy.roundRobin cnt [a, b, c] healthOf
      = (rotateList [a, b, c] (cnt % 3), cnt + 1) := by
  unfold selectCandidates
  have hfa : decide ((healthOf a).state ≠ HealthState.unhealthy) = true := by simp [ha]
  have hfb : decide ((healthOf b).state ≠ HealthState.unhealthy) = true := by simp [hb]
  have hfc : decide ((healthOf c).state ≠ HealthState.unhealthy) = true := by simp [hc]
  simp [List.filter, hfa, hfb, hfc]

/-- Sample request used by witnesses. -/
def sampleReq : RequestSpec :=
  { prompt := "What is the capital of France?", model := "gpt-3.5-turbo",
    temperature := none, maxTokens := none, topP := none, stop := [] }

/-- A second, distinct sample request. -/
def sampleReq2 : RequestSpec :=
  { prompt := "Explain machine learning", model := "gpt-3.5-turbo",
    temperature := none, maxTokens := some 100, topP := none, stop := [] }

/-- Sample completion result used by witnesses. -/
def sampleResult : CompletionResult :=
  { content := "Paris", provider := "openai-primary", costEstimate := 3,
    latencyMs := 120, timestamp := 5 }

/-- Build a sample provider record. -/
def mkProvider (nm : String) (prio : Nat) : ProviderRecord :=
  { name := nm, kind := "openai", priority := prio, timeout := 30,
    maxRetries := 3, costPerToken := 2 }

/-- Health snapshot marking every provider healthy. -/
def healthyAll : ProviderRecord → HealthRecord :=
  fun _ => { state := HealthState.healthy, totalChecks := 10, successes := 10,
             consecutiveFailures := 0, lastFailureAt := 0 }

/-- Health snapshot marking every provider unhealthy, last failures staggered
by priority. -/
def unhealthyAll : ProviderRecord → HealthRecord :=
  fun p => { state := HealthState.unhealthy, totalChecks := 10, successes := 0,
             consecutiveFailures := 5, lastFailureAt := p.priority }

/-- Sample adapter: the priority-1 provider succeeds, everyone else times
out. -/
def sampleAtt : ProviderRecord → Nat → Except ProviderError CompletionResult :=
  fun p _ =>
    if p.priority = 1 then .ok sampleResult
    else .error (.transient "timeout")

/-- Sample stream adapter: the priority-1 provider streams two chunks and
completes, everyone else fails before the first chunk. -/
def sampleSatt : ProviderRecord → List String × Option ProviderError :=
  fun p =>
    if p.priority = 1 then (["Hello", " world"], none)
    else ([], some (.transient "timeout"))

/-- C2: execute (and hence complete) fails only when every candidate has been
exhausted: success on any candidate's attempt returns that result immediately,
and when all candidates fail the outcome is the aggregate exhaustion error
carrying the per-provider error list. -/
theorem execute_fails_only_when_all_candidates_exhausted
    (att : ProviderRecord → Nat → Except ProviderError CompletionResult)
    (cs pre post : List ProviderRecord) (p : ProviderRecord)
    (r : CompletionResult) (f : ProviderRecord → ProviderError)
    (hall : ∀ q ∈ cs, tryProvider att q = .error (f q))
    (hpre : ∀ q ∈ pre, ∃ e, tryProvider att q = .error e)
    (hp : tryProvider att p = .ok r) :
    execute att cs = .exhausted (cs.map fun q => (q.name, f q))
    ∧ execute att (pre ++ p :: post) = .ok r
    ∧ (∀ (cs' : List ProviderRecord) (errs : List (String × ProviderError)),
        execute att cs' = .exhausted errs →
          ∀ q ∈ cs', ∃ e, tryProvider att q = .error e) := by
  refine ⟨?_, ?_, ?_⟩
  · have h := executeGo_all_fail att f cs [] hall
    simpa [execute] using h
  · exact executeGo_first_success att p r post hp pre [] hpre
  · intro cs' errs hex
    exact executeGo_exhausted_all_fail att cs' [] errs hex

/-- Witness for C2 at concrete providers and adapter. -/
theorem execute_fails_only_when_all_candidates_exhausted_witness :
    (∀ q ∈ [mkProvider "openai-backup" 2], tryProvider sampleAtt q
        = .error ((fun _ => ProviderError.transient "timeout") q))
    ∧ (∀ q ∈ [mkProvider "openai-backup" 2], ∃ e, tryProvider sampleAtt q = .error e)
    ∧ tryProvider sampleAtt (mkProvider "openai-primary" 1) = .ok sampleResult
    ∧ (execute sampleAtt [mkProvider "openai-backup" 2]
        = .exhausted ([mkProvider "openai-backup" 2].map
            fun q => (q.name, (fun _ => ProviderError.transient "timeout") q))
      ∧ execute sampleAtt
          ([mkProvider "openai-backup" 2] ++ (mkProvider "openai-primary" 1) :: [])
          = .ok sampleResult
      ∧ (∀ (cs' : List ProviderRecord) (errs : List (String × ProviderError)),
          execute sampleAtt cs' = .exhausted errs →
            ∀ q ∈ cs', ∃ e, tryProvider sampleAtt q = .error e)) := by
  have h1 : ∀ q ∈ [mkProvider "openai-backup" 2], tryProvider sampleAtt q
      = .error ((fun _ => ProviderError.transient "timeout") q) := by
    intro q hq
    rw [List.mem_singleton] at hq
    subst hq
    rfl
  have h2 : ∀ q ∈ [mkProvider "openai-backup" 2], ∃ e, tryProvider sampleAtt q = .error e := by
    intro q hq
    exact ⟨_, h1 q hq⟩
  have h3 : tryProvider sampleAtt (mkProvider "openai-primary" 1) = .ok sampleResult := rfl
  exact ⟨h1, h2, h3,
    execute_fails_only_when_all_candidates_exhausted sampleAtt
      [mkProvider "openai-backup" 2] [mkProvider "openai-backup" 2] []
      (mkProvider "openai-primary" 1) sampleResult
      (fun _ => ProviderError.transient "timeout") h1 h2 h3⟩

/-- C3: for every sequence of lookup and store operations on a cache of
capacity N, the cache never holds more than N entries, and a store performed
at capacity evicts exactly the least-recently-used entry (the last in recency
order) before inserting the new one. -/
theorem cache_bounded_by_capacity_and_evicts_lru
    (N ttlC : Nat) (hN : 0 < N) (ops : List CacheOp)
    (c : Cache) (fp : RequestSpec) (r : CompletionResult) (now : Nat)
    (hcap : c.entries.length = c.maxSize)
    (habsent : findKey fp c.entries = none) :
    ((Cache.init N ttlC).runOps ops).entries.length ≤ N
    ∧ (c.store fp r now).entries = ⟨fp, r, now⟩ :: c.entries.dropLast := by
  constructor
  · exact runOps_invariant ops (Cache.init N ttlC) hN (by simp [Cache.init])
  · simp only [Cache.store]
    rw [removeKey_of_not_found fp c.entries habsent]
    rw [if_pos (le_of_eq hcap.symm)]

/-- Witness for C3 at a concrete cache at capacity 1. -/
theorem cache_bounded_by_capacity_and_evicts_lru_witness :
    0 < 1
    ∧ ((⟨[⟨sampleReq, sampleResult, 0⟩], 1, 10, 0, 0⟩ : Cache).entries.length
        = (⟨[⟨sampleReq, sampleResult, 0⟩], 1, 10, 0, 0⟩ : Cache).maxSize)
    ∧ findKey sampleReq2 (⟨[⟨sampleReq, sampleResult, 0⟩], 1, 10, 0, 0⟩ : Cache).entries = none
    ∧ (((Cache.init 1 10).runOps
          [CacheOp.put sampleReq sampleResult 0,
           CacheOp.put sampleReq2 sampleResult 1]).entries.length ≤ 1
      ∧ ((⟨[⟨sampleReq, sampleResult, 0⟩], 1, 10, 0, 0⟩ : Cache).store
            sampleReq2 sampleResult 5).entries
          = ⟨sampleReq2, sampleResult, 5⟩ ::
              (⟨[⟨sampleReq, sampleResult, 0⟩], 1, 10, 0, 0⟩ : Cache).entries.dropLast) := by
  refine ⟨by decide, rfl, rfl, ?_⟩
  exact cache_bounded_by_capacity_and_evicts_lru 1 10 (by decide)
    [CacheOp.put sampleReq sampleResult 0, CacheOp.put sampleReq2 sampleResult 1]
    ⟨[⟨sampleReq, sampleResult, 0⟩], 1, 10, 0, 0⟩ sampleReq2 sampleResult 5 rfl rfl

/-- C4: with the round_robin strategy and providers [A, B, C] all healthy,
the k-th consecutive call reads counter k, advances it exactly once, and its
candidate list is the eligible set rotated by k mod 3, so the first-ranked
provider cycles A, B, C, A, B, C, …. -/
theorem round_robin_cycles_through_providers
    (a b c : ProviderRecord) (healthOf : ProviderRecord → HealthRecord) (k : Nat)
    (ha : (healthOf a).state = HealthState.healthy)
    (hb : (healthOf b).state = HealthState.healthy)
    (hc : (healthOf c).state = HealthState.healthy) :
    rrCounterIter [a, b, c] healthOf k = k
    ∧ (selectCandidates Strategy.roundRobin k [a, b, c] healthOf).2 = k + 1
    ∧ (selectCandidates Strategy.roundRobin k [a, b, c] healthOf).1
        = rotateList [a, b, c] (k % 3)
    ∧ (selectCandidates Strategy.roundRobin k [a, b, c] healthOf).1.head?
        = [a, b, c][k % 3]? := by
  have hsel : ∀ cnt, selectCandidates Strategy.roundRobin cnt [a, b, c] healthOf
      = (rotateList [a, b, c] (cnt % 3), cnt + 1) :=
    fun cnt => selectCandidates_roundRobin_healthy a b c healthOf cnt ha hb hc
  have hiter : rrCounterIter [a, b, c] healthOf k = k := by
    induction k with
    | zero => rfl
    | succ n ih =>
      show (selectCandidates Strategy.roundRobin (rrCounterIter [a, b, c] healthOf n)
        [a, b, c] healthOf).2 = n + 1
      rw [ih, hsel n]
  refine ⟨hiter, by rw [hsel k], by rw [hsel k], ?_⟩
  rw [hsel k]
  have h3 : k % 3 = 0 ∨ k % 3 = 1 ∨ k % 3 = 2 := by omega
  rcases h3 with h3 | h3 | h3 <;> rw [h3] <;> rfl

/-- Witness for C4 at three concrete healthy providers and k = 4. -/
theorem round_robin_cycles_through_providers_witness :
    (healthyAll (mkProvider "A" 1)).state = HealthState.healthy
    ∧ (healthyAll (mkProvider "B" 2)).state = HealthState.healthy
    ∧ (healthyAll (mkProvider "C" 3)).state = HealthState.healthy
    ∧ (rrCounterIter [mkProvider "A" 1, mkProvider "B" 2, mkProvider "C" 3] healthyAll 4 = 4
      ∧ (selectCandidates Strategy.roundRobin 4
          [mkProvider "A" 1, mkProvider "B" 2, mkProvider "C" 3] healthyAll).2 = 4 + 1
      ∧ (selectCandidates Strategy.roundRobin 4
          [mkProvider "A" 1, mkProvider "B" 2, mkProvider "C" 3] healthyAll).1
          = rotateList [mkProvider "A" 1, mkProvider "B" 2, mkProvider "C" 3] (4 % 3)
      ∧ (selectCandidates Strategy.roundRobin 4
          [mkProvider "A" 1, mkProvider "B" 2, mkProvider "C" 3] healthyAll).1.head?
          = [mkProvider "A" 1, mkProvider "B" 2, mkProvider "C" 3][4 % 3]?) :=
  ⟨rfl, rfl, rfl,
    round_robin_cycles_through_providers (mkProvider "A" 1) (mkProvider "B" 2)
      (mkProvider "C" 3) healthyAll 4 rfl rfl rfl⟩

/-- C5: get_cost_summary(since=T) is computed only from cost events with
timestamp ≥ T (all events when since is omitted): its total_cost is the sum of
the matching events' costs, its per-provider map groups exactly those events
by provider, and its request_count is their number. -/
theorem cost_summary_filters_since_and_sums
    (events : List CostEvent) (since : Option Nat) :
    (getCostSummary events since).totalCost
        = ((sinceFilter since events).map CostEvent.cost).sum
    ∧ (getCostSummary events since).requestCount = (sinceFilter since events).length
    ∧ (∀ name, pcLookup name (getCostSummary events since).providerCosts
        = (((sinceFilter since events).filter
            (fun e => decide (e.provider = name))).map CostEvent.cost).sum)
    ∧ (∀ name, name ∈ (getCostSummary events since).providerCosts.map Prod.fst
        ↔ name ∈ (sinceFilter since events).map CostEvent.provider) := by
  have hsf := sinceFilter_eq_filter since events
  refine ⟨?_, ?_, ?_, ?_⟩
  · rw [hsf]
    simpa [getCostSummary] using foldl_summary_total since events ⟨0, [], 0⟩
  · rw [hsf]
    simpa [getCostSummary] using foldl_summary_count since events ⟨0, [], 0⟩
  · intro name
    rw [hsf]
    simpa [getCostSummary, pcLookup] using foldl_summary_pc since name events ⟨0, [], 0⟩
  · intro name
    rw [hsf]
    simpa [getCostSummary] using foldl_summary_names since name events ⟨0, [], 0⟩

/-- C6: when at least one provider is registered but every registered provider
is unhealthy, the candidate list is still non-empty — the full registered set
ordered least-recently-failed first — and execution attempts delivery against
it: it either succeeds or exhausts with one recorded error per registered
provider, never failing without any attempt. -/
theorem all_unhealthy_degrades_to_full_candidate_list
    (strat : Strategy) (counter : Nat) (providers : List ProviderRecord)
    (healthOf : ProviderRecord → HealthRecord)
    (att : ProviderRecord → Nat → Except ProviderError CompletionResult)
    (hne : providers ≠ [])
    (hun : ∀ p ∈ providers, (healthOf p).state = HealthState.unhealthy) :
    (selectCandidates strat counter providers healthOf).1
        = sortLe (failLe healthOf) providers
    ∧ List.Perm (selectCandidates strat counter providers healthOf).1 providers
    ∧ (selectCandidates strat counter providers healthOf).1 ≠ []
    ∧ List.Pairwise
        (fun p q => (healthOf p).lastFailureAt ≤ (healthOf q).lastFailureAt)
        (selectCandidates strat counter providers healthOf).1
    ∧ ((∃ r, execute att (selectCandidates strat counter providers healthOf).1 = .ok r)
       ∨ (∃ errs, execute att (selectCandidates strat counter providers healthOf).1
            = .exhausted errs ∧ errs.length = providers.length)) := by
  have hfil := eligible_nil_of_all_unhealthy providers healthOf hun
  have hsel : (selectCandidates strat counter providers healthOf).1
      = sortLe (failLe healthOf) providers := by
    unfold selectCandidates
    rw [hfil]
    simp
  have hperm : List.Perm (selectCandidates strat counter providers healthOf).1 providers := by
    rw [hsel]
    exact sortLe_perm (failLe healthOf) providers
  have hlen : (selectCandidates strat counter providers healthOf).1.length
      = providers.length := hperm.length_eq
  have hne' : (selectCandidates strat counter providers healthOf).1 ≠ [] := by
    intro h
    apply hne
    have : providers.length = 0 := by rw [← hlen, h]; rfl
    exact List.length_eq_zero.mp this
  refine ⟨hsel, hperm, hne', ?_, ?_⟩
  · rw [hsel]
    have hpw := sortLe_pairwise (failLe healthOf)
      (fun x y z hxy hyz => by
        simp only [failLe, decide_eq_true_eq] at hxy hyz ⊢
        exact Nat.le_trans hxy hyz)
      (fun x y => by
        simp only [failLe, decide_eq_true_eq]
        exact Nat.le_total _ _)
      providers
    exact hpw.imp (fun h => by simpa [failLe, decide_eq_true_eq] using h)
  · cases hex : execute att (selectCandidates strat counter providers healthOf).1 with
    | ok r => exact Or.inl ⟨r, rfl⟩
    | exhausted errs =>
      refine Or.inr ⟨errs, rfl, ?_⟩
      have hlen2 := executeGo_exhausted_length att
        (selectCandidates strat counter providers healthOf).1 [] errs hex
      simp at hlen2
      rw [hlen2, hlen]

/-- Witness for C6 at one concrete unhealthy provider. -/
theorem all_unhealthy_degrades_to_full_candidate_list_witness :
    ([mkProvider "openai-primary" 1] ≠ ([] : List ProviderRecord))
    ∧ (∀ p ∈ [mkProvider "openai-primary" 1],
        (unhealthyAll p).state = HealthState.unhealthy)
    ∧ ((selectCandidates Strategy.priority 0 [mkProvider "openai-primary" 1] unhealthyAll).1
          = sortLe (failLe unhealthyAll) [mkProvider "openai-primary" 1]
      ∧ List.Perm
          (selectCandidates Strategy.priority 0 [mkProvider "openai-primary" 1] unhealthyAll).1
          [mkProvider "openai-primary" 1]
      ∧ (selectCandidates Strategy.priority 0 [mkProvider "openai-primary" 1] unhealthyAll).1 ≠ []
      ∧ List.Pairwise
          (fun p q => (unhealthyAll p).lastFailureAt ≤ (unhealthyAll q).lastFailureAt)
          (selectCandidates Strategy.priority 0 [mkProvider "openai-primary" 1] unhealthyAll).1
      ∧ ((∃ r, execute sampleAtt
            (selectCandidates Strategy.priority 0 [mkProvider "openai-primary" 1] unhealthyAll).1
            = .ok r)
         ∨ (∃ errs, execute sampleAtt
              (selectCandidates Strategy.priority 0 [mkProvider "openai-primary" 1] unhealthyAll).1
              = .exhausted errs
            ∧ errs.length = [mkProvider "openai-primary" 1].length))) := by
  have h1 : [mkProvider "openai-primary" 1] ≠ ([] : List ProviderRecord) := by
    intro h
    exact List.cons_ne_nil _ _ h
  have h2 : ∀ p ∈ [mkProvider "openai-primary" 1],
      (unhealthyAll p).state = HealthState.unhealthy := by
    intro p hp
    rfl
  exact ⟨h1, h2,
    all_unhealthy_degrades_to_full_candidate_list Strategy.priority 0
      [mkProvider "openai-primary" 1] unhealthyAll sampleAtt h1 h2⟩

/-- C7: for every streamed request, failover applies only before the first
chunk: either every candidate failed before emitting a chunk and the stream
exhausts with no output, or all delivered chunks come from the single first
candidate that produced output — and if that provider fails mid-stream the
sequence terminates with its error, without switching to another provider. -/
theorem stream_retry_only_before_first_chunk
    (satt : ProviderRecord → List String × Option ProviderError)
    (cs : List ProviderRecord) :
    (∃ errs, streamExec satt cs = ([], .exhausted errs)
      ∧ ∀ q ∈ cs, ∃ e, satt q = ([], some e))
    ∨ (∃ pre p post, cs = pre ++ p :: post
        ∧ (∀ q ∈ pre, ∃ e, satt q = ([], some e))
        ∧ ((∃ chunks, satt p = (chunks, none)
              ∧ streamExec satt cs = (chunks, .completed p.name))
           ∨ (∃ chunks e, satt p = (chunks, some e) ∧ chunks ≠ []
              ∧ streamExec satt cs = (chunks, .failed e)))) :=
  streamGo_characterization satt cs []

theorem lookup_of_findKey_none (c : Cache) (fp : RequestSpec) (now : Nat)
    (h : findKey fp c.entries = none) :
    c.lookup fp now = (none, { c with misses := c.misses + 1 }) := by
  unfold Cache.lookup
  rw [h]

theorem routerComplete_hit (st : RouterState) (healthOf : ProviderRecord → HealthRecord)
    (att : ProviderRecord → Nat → Except ProviderError CompletionResult)
    (req : RequestSpec) (now : Nat) (r : CompletionResult) (c'' : Cache)
    (hl : st.cache.lookup (fingerprint req) now = (some r, c'')) :
    routerComplete st healthOf att req now = (.ok r, { st with cache := c'' }) := by
  unfold routerComplete
  rw [hl]

theorem routerComplete_miss (st : RouterState) (healthOf : ProviderRecord → HealthRecord)
    (att : ProviderRecord → Nat → Except ProviderError CompletionResult)
    (req : RequestSpec) (now : Nat) (c'' : Cache)
    (hl : st.cache.lookup (fingerprint req) now = (none, c'')) :
    routerComplete st healthOf att req now
      = finishRequest { st with cache := c'' } att (planRequest st healthOf).1
          (planRequest st healthOf).2 req now := by
  unfold routerComplete
  rw [hl]

theorem finishRequest_ok (st : RouterState)
    (att : ProviderRecord → Nat → Except ProviderError CompletionResult)
    (cands : List ProviderRecord) (cnt' : Nat) (req : RequestSpec) (now : Nat)
    (r : CompletionResult) (hex : execute att cands = .ok r) :
    finishRequest st att cands cnt' req now
      = (.ok r,
          { st with cache := st.cache.store (fingerprint req) r now,
                    rrCounter := cnt' }) := by
  unfold finishRequest
  rw [hex]

theorem routerStream_hit (st : RouterState) (healthOf : ProviderRecord → HealthRecord)
    (satt : ProviderRecord → List String × Option ProviderError)
    (req : RequestSpec) (now : Nat) (r : CompletionResult) (c'' : Cache)
    (hl : st.cache.lookup (fingerprint req) now = (some r, c'')) :
    routerStream st healthOf satt req now
      = ([r.content], .completed r.provider, { st with cache := c'' }) := by
  unfold routerStream
  rw [hl]

theorem routerStream_miss_completed (st : RouterState)
    (healthOf : ProviderRecord → HealthRecord)
    (satt : ProviderRecord → List String × Option ProviderError)
    (req : RequestSpec) (now : Nat) (c'' : Cache) (chunks : List String)
    (pname : String)
    (hl : st.cache.lookup (fingerprint req) now = (none, c''))
    (hs : streamExec satt (planRequest st healthOf).1 = (chunks, .completed pname)) :
    routerStream st healthOf satt req now
      = (chunks, .completed pname,
         { st with cache := c''.store (fingerprint req) (streamResult chunks pname now) now,
                   rrCounter := (planRequest st healthOf).2 }) := by
  unfold routerStream
  rw [hl, hs]

/-- C1: for a request whose completed result gets cached under its
fingerprint, the first complete call returns the computed result, a second
complete call with an identical fingerprint within the cache TTL returns a
byte-identical copy of the cached CompletionResult and increments the hit
counter by exactly one, and an entry at least TTL old is treated as a miss. -/
theorem second_identical_call_within_ttl_hits_cache
    (st : RouterState) (healthOf : ProviderRecord → HealthRecord)
    (att : ProviderRecord → Nat → Except ProviderError CompletionResult)
    (req : RequestSpec) (t now : Nat) (r : CompletionResult)
    (hmiss : findKey (fingerprint req) st.cache.entries = none)
    (hexec : execute att (planRequest st healthOf).1 = .ok r) :
    (routerComplete st healthOf att req t).1 = .ok r
    ∧ (now - t < st.cache.ttl →
        (routerComplete (routerComplete st healthOf att req t).2 healthOf att req now).1
          = .ok r
        ∧ (routerComplete (routerComplete st healthOf att req t).2 healthOf att req now).2.cache.hits
          = (routerComplete st healthOf att req t).2.cache.hits + 1)
    ∧ (st.cache.ttl ≤ now - t →
        ((routerComplete st healthOf att req t).2.cache.lookup (fingerprint req) now).1 = none
        ∧ ((routerComplete st healthOf att req t).2.cache.lookup (fingerprint req) now).2.misses
          = (routerComplete st healthOf att req t).2.cache.misses + 1) := by
  have hlk := lookup_of_findKey_none st.cache (fingerprint req) t hmiss
  have hrc : routerComplete st healthOf att req t
      = (.ok r, { st with
          cache := ({ st.cache with misses := st.cache.misses + 1 } : Cache).store
            (fingerprint req) r t,
          rrCounter := (planRequest st healthOf).2 }) := by
    rw [routerComplete_miss st healthOf att req t _ hlk,
      finishRequest_ok _ att _ _ req t r hexec]
  have hcache1 : (routerComplete st healthOf att req t).2.cache
      = ({ st.cache with misses := st.cache.misses + 1 } : Cache).store (fingerprint req) r t := by
    rw [hrc]
  refine ⟨by rw [hrc], ?_, ?_⟩
  · intro hfresh
    rcases hl2 : (({ st.cache with misses := st.cache.misses + 1 } : Cache).store
        (fingerprint req) r t).lookup (fingerprint req) now with ⟨o, c''⟩
    have ho : o = some r := by
      have hf := lookup_store_fresh_fst ({ st.cache with misses := st.cache.misses + 1 } : Cache)
        (fingerprint req) r t now hfresh
      rw [hl2] at hf
      exact hf
    subst ho
    have hhits : c''.hits = st.cache.hits + 1 := by
      have hf := lookup_store_fresh_hits ({ st.cache with misses := st.cache.misses + 1 } : Cache)
        (fingerprint req) r t now hfresh
      rw [hl2] at hf
      exact hf
    have hl2' : (routerComplete st healthOf att req t).2.cache.lookup (fingerprint req) now
        = (some r, c'') := by
      rw [hcache1]
      exact hl2
    have h2 := routerComplete_hit ((routerComplete st healthOf att req t).2) healthOf att
      req now r c'' hl2'
    constructor
    · rw [h2]
    · rw [h2, hcache1]
      exact hhits
  · intro hexp
    rw [hcache1]
    constructor
    · exact lookup_store_expired_fst
        ({ st.cache with misses := st.cache.misses + 1 } : Cache)
        (fingerprint req) r t now hexp
    · rw [lookup_store_expired_misses
        ({ st.cache with misses := st.cache.misses + 1 } : Cache)
        (fingerprint req) r t now hexp]
      rfl

/-- Witness for C1 at a concrete router with an empty cache. -/
theorem second_identical_call_within_ttl_hits_cache_witness :
    findKey (fingerprint sampleReq)
        (RouterState.mk Strategy.priority 0 [mkProvider "openai-primary" 1]
          (Cache.init 2 100)).cache.entries = none
    ∧ execute sampleAtt
        (planRequest (RouterState.mk Strategy.priority 0 [mkProvider "openai-primary" 1]
          (Cache.init 2 100)) healthyAll).1 = .ok sampleResult
    ∧ ((routerComplete (RouterState.mk Strategy.priority 0 [mkProvider "openai-primary" 1]
          (Cache.init 2 100)) healthyAll sampleAtt sampleReq 0).1 = .ok sampleResult
      ∧ (50 - 0 < (RouterState.mk Strategy.priority 0 [mkProvider "openai-primary" 1]
            (Cache.init 2 100)).cache.ttl →
          (routerComplete (routerComplete (RouterState.mk Strategy.priority 0
              [mkProvider "openai-primary" 1] (Cache.init 2 100)) healthyAll sampleAtt
              sampleReq 0).2 healthyAll sampleAtt sampleReq 50).1 = .ok sampleResult
          ∧ (routerComplete (routerComplete (RouterState.mk Strategy.priority 0
              [mkProvider "openai-primary" 1] (Cache.init 2 100)) healthyAll sampleAtt
              sampleReq 0).2 healthyAll sampleAtt sampleReq 50).2.cache.hits
            = (routerComplete (RouterState.mk Strategy.priority 0
                [mkProvider "openai-primary" 1] (Cache.init 2 100)) healthyAll sampleAtt
                sampleReq 0).2.cache.hits + 1)
      ∧ ((RouterState.mk Strategy.priority 0 [mkProvider "openai-primary" 1]
            (Cache.init 2 100)).cache.ttl ≤ 50 - 0 →
          ((routerComplete (RouterState.mk Strategy.priority 0
              [mkProvider "openai-primary" 1] (Cache.init 2 100)) healthyAll sampleAtt
              sampleReq 0).2.cache.lookup (fingerprint sampleReq) 50).1 = none
          ∧ ((routerComplete (RouterState.mk Strategy.priority 0
              [mkProvider "openai-primary" 1] (Cache.init 2 100)) healthyAll sampleAtt
              sampleReq 0).2.cache.lookup (fingerprint sampleReq) 50).2.misses
            = (routerComplete (RouterState.mk Strategy.priority 0
                [mkProvider "openai-primary" 1] (Cache.init 2 100)) healthyAll sampleAtt
                sampleReq 0).2.cache.misses + 1)) :=
  ⟨rfl, rfl,
    second_identical_call_within_ttl_hits_cache
      (RouterState.mk Strategy.priority 0 [mkProvider "openai-primary" 1] (Cache.init 2 100))
      healthyAll sampleAtt sampleReq 0 50 sampleResult rfl rfl⟩

/-- C8: when a stream completes successfully on a cache miss, the full
concatenation of its chunks is cached under the same fingerprint scheme as a
non-streamed completion, and a subsequent streaming request within the TTL
hits this cache and yields the cached full result as a single
immediately-available chunk; a non-streamed complete call hits the same entry. -/
theorem stream_success_cached_and_hit_yields_single_chunk
    (st : RouterState) (healthOf : ProviderRecord → HealthRecord)
    (satt : ProviderRecord → List String × Option ProviderError)
    (att : ProviderRecord → Nat → Except ProviderError CompletionResult)
    (req : RequestSpec) (t now : Nat) (chunks : List String) (pname : String)
    (hmiss : findKey (fingerprint req) st.cache.entries = none)
    (hstream : streamExec satt (planRequest st healthOf).1 = (chunks, .completed pname))
    (hfresh : now - t < st.cache.ttl) :
    (routerStream st healthOf satt req t).1 = chunks
    ∧ (routerStream st healthOf satt req t).2.1 = StreamOutcome.completed pname
    ∧ (∃ en, findKey (fingerprint req) (routerStream st healthOf satt req t).2.2.cache.entries
          = some en
        ∧ en.result.content = String.join chunks ∧ en.insertedAt = t)
    ∧ (routerStream (routerStream st healthOf satt req t).2.2 healthOf satt req now).1
        = [String.join chunks]
    ∧ (∃ r', (routerComplete (routerStream st healthOf satt req t).2.2 healthOf att req now).1
          = .ok r' ∧ r'.content = String.join chunks) := by
  have hlk := lookup_of_findKey_none st.cache (fingerprint req) t hmiss
  have hrs := routerStream_miss_completed st healthOf satt req t _ chunks pname hlk hstream
  have hcache1 : (routerStream st healthOf satt req t).2.2.cache
      = ({ st.cache with misses := st.cache.misses + 1 } : Cache).store (fingerprint req)
          (streamResult chunks pname t) t := by
    rw [hrs]
  rcases hl2 : (({ st.cache with misses := st.cache.misses + 1 } : Cache).store
      (fingerprint req) (streamResult chunks pname t) t).lookup (fingerprint req) now
      with ⟨o, c''⟩
  have ho : o = some (streamResult chunks pname t) := by
    have hf := lookup_store_fresh_fst ({ st.cache with misses := st.cache.misses + 1 } : Cache)
      (fingerprint req) (streamResult chunks pname t) t now hfresh
    rw [hl2] at hf
    exact hf
  subst ho
  have hl2' : (routerStream st healthOf satt req t).2.2.cache.lookup (fingerprint req) now
      = (some (streamResult chunks pname t), c'') := by
    rw [hcache1]
    exact hl2
  refine ⟨by rw [hrs], by rw [hrs], ?_, ?_, ?_⟩
  · refine ⟨⟨fingerprint req, streamResult chunks pname t, t⟩, ?_, rfl, rfl⟩
    rw [hcache1]
    exact findKey_store _ _ _ _
  · rw [routerStream_hit ((routerStream st healthOf satt req t).2.2) healthOf satt req now
      (streamResult chunks pname t) c'' hl2']
    rfl
  · refine ⟨streamResult chunks pname t, ?_, rfl⟩
    rw [routerComplete_hit ((routerStream st healthOf satt req t).2.2) healthOf att req now
      (streamResult chunks pname t) c'' hl2']

/-- Witness for C8 at a concrete router, stream adapter and times. -/
theorem stream_success_cached_and_hit_yields_single_chunk_witness :
    findKey (fingerprint sampleReq)
        (RouterState.mk Strategy.priority 0 [mkProvider "openai-primary" 1]
          (Cache.init 2 100)).cache.entries = none
    ∧ streamExec sampleSatt
        (planRequest (RouterState.mk Strategy.priority 0 [mkProvider "openai-primary" 1]
          (Cache.init 2 100)) healthyAll).1
        = (["Hello", " world"], .completed "openai-primary")
    ∧ 50 - 0 < (RouterState.mk Strategy.priority 0 [mkProvider "openai-primary" 1]
        (Cache.init 2 100)).cache.ttl
    ∧ ((routerStream (RouterState.mk Strategy.priority 0 [mkProvider "openai-primary" 1]
          (Cache.init 2 100)) healthyAll sampleSatt sampleReq 0).1 = ["Hello", " world"]
      ∧ (routerStream (RouterState.mk Strategy.priority 0 [mkProvider "openai-primary" 1]
          (Cache.init 2 100)) healthyAll sampleSatt sampleReq 0).2.1
          = StreamOutcome.completed "openai-primary"
      ∧ (∃ en, findKey (fingerprint sampleReq)
            (routerStream (RouterState.mk Strategy.priority 0 [mkProvider "openai-primary" 1]
              (Cache.init 2 100)) healthyAll sampleSatt sampleReq 0).2.2.cache.entries
            = some en
          ∧ en.result.content = String.join ["Hello", " world"] ∧ en.insertedAt = 0)
      ∧ (routerStream (routerStream (RouterState.mk Strategy.priority 0
            [mkProvider "openai-primary" 1] (Cache.init 2 100)) healthyAll sampleSatt
            sampleReq 0).2.2 healthyAll sampleSatt sampleReq 50).1
          = [String.join ["Hello", " world"]]
      ∧ (∃ r', (routerComplete (routerStream (RouterState.mk Strategy.priority 0
            [mkProvider "openai-primary" 1] (Cache.init 2 100)) healthyAll sampleSatt
            sampleReq 0).2.2 healthyAll sampleAtt sampleReq 50).1 = .ok r'
          ∧ r'.content = String.join ["Hello", " world"])) :=
  ⟨rfl, rfl, by decide,
    stream_success_cached_and_hit_yields_single_chunk
      (RouterState.mk Strategy.priority 0 [mkProvider "openai-primary" 1] (Cache.init 2 100))
      healthyAll sampleSatt sampleAtt sampleReq 0 50 ["Hello", " world"] "openai-primary"
      rfl rfl (by decide)⟩

/-- C9: the router exposes runtime strategy switching via set_strategy(name):
a valid switch succeeds, changes only the strategy field, takes effect on the
next request's candidate ranking, and a request whose candidate ordering was
already computed finishes with the same outcome after the switch. -/
theorem set_strategy_next_request_in_flight_kept
    (st : RouterState) (name : String) (s : Strategy)
    (healthOf : ProviderRecord → HealthRecord)
    (att : ProviderRecord → Nat → Except ProviderError CompletionResult)
    (cands : List ProviderRecord) (cnt : Nat) (req : RequestSpec) (now : Nat)
    (hname : strategyOfName name = some s) :
    ∃ st', setStrategy st name = .ok st'
      ∧ st'.strategy = s
      ∧ st'.providers = st.providers
      ∧ st'.rrCounter = st.rrCounter
      ∧ st'.cache = st.cache
      ∧ planRequest st' healthOf = selectCandidates s st.rrCounter st.providers healthOf
      ∧ (finishRequest st' att cands cnt req now).1
          = (finishRequest st att cands cnt req now).1 := by
  refine ⟨{ st with strategy := s }, ?_, rfl, rfl, rfl, rfl, rfl, ?_⟩
  · unfold setStrategy
    rw [hname]
  · unfold finishRequest
    cases hex : execute att cands with
    | ok r => rfl
    | exhausted errs => rfl

/-- Witness for C9 at a concrete router and the name round_robin. -/
theorem set_strategy_next_request_in_flight_kept_witness :
    strategyOfName "round_robin" = some Strategy.roundRobin
    ∧ (∃ st', setStrategy (RouterState.mk Strategy.priority 0
          [mkProvider "openai-primary" 1] (Cache.init 2 100)) "round_robin" = .ok st'
        ∧ st'.strategy = Strategy.roundRobin
        ∧ st'.providers = (RouterState.mk Strategy.priority 0
            [mkProvider "openai-primary" 1] (Cache.init 2 100)).providers
        ∧ st'.rrCounter = (RouterState.mk Strategy.priority 0
            [mkProvider "openai-primary" 1] (Cache.init 2 100)).rrCounter
        ∧ st'.cache = (RouterState.mk Strategy.priority 0
            [mkProvider "openai-primary" 1] (Cache.init 2 100)).cache
        ∧ planRequest st' healthyAll
            = selectCandidates Strategy.roundRobin 0 [mkProvider "openai-primary" 1] healthyAll
        ∧ (finishRequest st' sampleAtt [mkProvider "openai-primary" 1] 1 sampleReq 7).1
            = (finishRequest (RouterState.mk Strategy.priority 0
                [mkProvider "openai-primary" 1] (Cache.init 2 100)) sampleAtt
                [mkProvider "openai-primary" 1] 1 sampleReq 7).1) :=
  ⟨rfl,
    set_strategy_next_request_in_flight_kept
      (RouterState.mk Strategy.priority 0 [mkProvider "openai-primary" 1] (Cache.init 2 100))
      "round_robin" Strategy.roundRobin healthyAll sampleAtt
      [mkProvider "openai-primary" 1] 1 sampleReq 7 rfl⟩

/-- The shape of a positional argument at an example call site: a
string-valued prompt expression, or a single structured request record. -/
inductive PosArgKind
  | promptString
  | requestRecord
deriving DecidableEq

/-- One `router.complete`/`router.stream` call site as written in the example
scripts: source position, method, positional argument shapes and keyword
argument names. -/
structure CallSite where
  file : String
  line : Nat
  method : String
  positional : List PosArgKind
  keywords : List String
deriving DecidableEq

/-- Every `complete`/`stream` call site in the three example scripts,
transcribed from the source. -/
def exampleCallSites : List CallSite :=
  [⟨"examples/basic_usage.py", 43, "complete", [.promptString], ["model"]⟩,
   ⟨"examples/basic_usage.py", 58, "stream", [.promptString], ["model"]⟩,
   ⟨"examples/advanced_config.py", 66, "complete", [.promptString], ["model"]⟩,
   ⟨"examples/advanced_config.py", 81, "complete", [.promptString], ["model"]⟩,
   ⟨"examples/advanced_config.py", 97, "complete", [.promptString], ["model"]⟩,
   ⟨"examples/advanced_config.py", 112, "complete", [.promptString], ["model"]⟩,
   ⟨"examples/advanced_config.py", 119, "complete", [.promptString], ["model"]⟩,
   ⟨"examples/advanced_config.py", 129, "complete", [.promptString], ["model"]⟩,
   ⟨"examples/advanced_config.py", 150, "complete", [.promptString], ["model", "max_tokens"]⟩,
   ⟨"examples/advanced_config.py", 211, "complete", [.promptString], ["model", "max_tokens"]⟩,
   ⟨"examples/streaming_example.py", 54, "stream", [.promptString], ["model"]⟩,
   ⟨"examples/streaming_example.py", 80, "stream", [.promptString], ["model"]⟩,
   ⟨"examples/streaming_example.py", 111, "stream", [.promptString], ["model"]⟩,
   ⟨"examples/streaming_example.py", 130, "stream", [.promptString],
     ["model", "temperature", "max_tokens", "top_p"]⟩,
   ⟨"examples/streaming_example.py", 154, "stream", [.promptString], ["model"]⟩,
   ⟨"examples/streaming_example.py", 196, "stream", [.promptString], ["model", "stop"]⟩,
   ⟨"examples/streaming_example.py", 217, "complete", [.promptString], ["model"]⟩,
   ⟨"examples/streaming_example.py", 232, "stream", [.promptString], ["model"]⟩]

/-- The generation parameters the public surface accepts as individual
keyword arguments. -/
def allowedKeywords : List String :=
  ["model", "temperature", "max_tokens", "top_p", "stop"]

/-- Whether a call site passes the prompt as its single positional string
argument with the model and generation parameters as individual keyword
arguments — not as a single RequestSpec record. -/
def usesPromptAndKeywordShape (cs : CallSite) : Bool :=
  decide (cs.positional = [PosArgKind.promptString])
  && cs.keywords.all (fun k => allowedKeywords.contains k)
  && (decide (cs.method = "complete") || decide (cs.method = "stream"))

/-- C10: at the public interface, complete and stream take the prompt as a
positional string argument with the model and the generation parameters
(temperature, max_tokens, top_p, stop) as individual keyword arguments, not
as a single RequestSpec record; every example call site uses this shape. -/
theorem example_call_sites_use_positional_prompt_keywords :
    exampleCallSites.all usesPromptAndKeywordShape = true := by
  rfl

end LLMRouter
